import Mathlib

/-!
Verification of the ITL_PGVector retrieval backend.

This file gives a shallow embedding of the repository's RAG layer
(`src/backend/src/services/rag_service.py` and
`src/backend/src/services/document_processor.py`) and of the
spec-described conversation-memory and tool-selection components, and
proves the frozen claims about them.

Modelling conventions:
* Python dict metadata becomes an ordered association list with
  dict-style insert-or-overwrite assignment (`Metadata.set`).
* The pgvector table `langchain_pg_embedding` becomes a `List Document`
  (the store); rows are immutable values.
* The embedding model and cosine distance are abstracted into a
  parameter `dist : String → String → ℚ` giving the distance between a
  query text and a stored chunk's text (the stored embedding is a pure
  function of the chunk text, so distance only depends on the two
  texts).  Claims about filtering, ordering and counting hold for every
  such `dist`.
* `similarity_search_with_score(query, k, filter={tenant_id})` issues a
  single SQL query `WHERE cmetadata->>'tenant_id' = :t ORDER BY distance
  LIMIT k`; it is embedded as filter, then sort ascending by distance,
  then take `k` — the tenant filter is inside the search, not a
  post-filter.
* Fallible external effects (the vector-store insert, the PDF load)
  become explicit `Except` parameters, matching the try/except structure
  of the source.
-/

namespace ITLPGVector

/-- A metadata value stored in a chunk's JSONB metadata: the source puts
strings and integers there. -/
inductive MVal where
  | s (v : String)
  | n (v : Nat)
deriving DecidableEq, Repr

/-- Python-dict metadata: an ordered association list of key/value pairs
(keys unique by construction of `set`). -/
abbrev Metadata := List (String × MVal)

/-- Python dict assignment `m[k] = v`: overwrite in place if the key is
present, else append at the end (dict insertion order). -/
def Metadata.set : Metadata → String → MVal → Metadata
  | [], k, v => [(k, v)]
  | (k', v') :: m, k, v =>
      if k' = k then (k, v) :: m else (k', v') :: Metadata.set m k v

/-- Python dict lookup `m.get(k)`: the value at the first matching key. -/
def Metadata.get : Metadata → String → Option MVal
  | [], _ => none
  | (k', v) :: m, k => if k' = k then some v else Metadata.get m k

/-- A LangChain `Document`: text plus metadata.  Also models one row of
the `langchain_pg_embedding` table (the embedding column is a pure
function of `page_content`, so it is not stored separately). -/
structure Document where
  page_content : String
  metadata : Metadata
deriving DecidableEq, Repr

/-- One formatted search hit of `RAGService.query_knowledge_base`. -/
structure QueryDoc where
  content : String
  metadata : Metadata
  distance : ℚ
  rank : Nat
deriving DecidableEq, Repr

/-- The dict returned by `RAGService.query_knowledge_base`. -/
structure QueryResult where
  success : Bool
  tenant_id : String
  query : String
  documents : List QueryDoc
  total_results : Nat
deriving DecidableEq, Repr

/-- The dict returned by `RAGService.ingest_documents` / `ingest_pdf`.
On success the keys `document_count` and `document_ids` are present; the
failure dict carries only `success` and `error` (fields `none`). -/
structure IngestResult where
  success : Bool
  tenant_id : Option String
  document_count : Option Nat
  document_ids : Option (List String)
  error : Option String
deriving DecidableEq, Repr

/-- The dict returned by `RAGService.delete_documents`. -/
structure DeleteResult where
  success : Bool
  deleted_count : Option Nat
  error : Option String
deriving DecidableEq, Repr

/-- Ordering of stored chunks by distance to the query text (the `ORDER
BY distance` of the similarity search). -/
def distLE (dist : String → String → ℚ) (q : String) (a b : Document) : Prop :=
  dist q a.page_content ≤ dist q b.page_content

instance (dist : String → String → ℚ) (q : String) : DecidableRel (distLE dist q) :=
  fun a b => inferInstanceAs (Decidable (dist q a.page_content ≤ dist q b.page_content))

instance (dist : String → String → ℚ) (q : String) : IsTotal Document (distLE dist q) :=
  ⟨fun a b => le_total (dist q a.page_content) (dist q b.page_content)⟩

instance (dist : String → String → ℚ) (q : String) : IsTrans Document (distLE dist q) :=
  ⟨fun _ _ _ hab hbc => le_trans hab hbc⟩

/-- The `WHERE cmetadata->>'tenant_id' = :tenant_id` predicate of the
similarity search and of the raw-SQL statements. -/
def tenantMatch (tenant : String) (c : Document) : Bool :=
  decide (c.metadata.get "tenant_id" = some (MVal.s tenant))

/-- The result-formatting loop of `query_knowledge_base`: `enumerate`
over the returned `(Document, score)` pairs, emitting
`{content, metadata, distance, rank := i + 1}`.  The counter `i` starts
at 1 because the source uses `rank = i + 1`. -/
def rankedDocs (dist : String → String → ℚ) (q : String) : Nat → List Document → List QueryDoc
  | _, [] => []
  | i, c :: l =>
      ⟨c.page_content, c.metadata, dist q c.page_content, i⟩ :: rankedDocs dist q (i + 1) l

/-- `RAGService.query_knowledge_base`: embed the query, run the
similarity search with the mandatory `{"tenant_id": tenant}` filter
(filter inside the search: `WHERE` + `ORDER BY distance` + `LIMIT k`),
and format the hits with distance and 1-based rank. -/
def query_knowledge_base (dist : String → String → ℚ) (tenant query : String)
    (top_k : Nat) (store : List Document) : QueryResult :=
  let results :=
    (List.insertionSort (distLE dist query) (store.filter (tenantMatch tenant))).take top_k
  let documents := rankedDocs dist query 1 results
  { success := true
    tenant_id := tenant
    query := query
    documents := documents
    total_results := documents.length }

/-- The metadata-stamping and zipping part of
`RAGService.ingest_documents`: every metadata dict gets
`tenant_id`, `doc_id := ids[i]` and `ingested_at := now` written into
it, then the documents are zipped with the stamped metadata into
LangChain documents (Python `zip` truncates to the shorter list). -/
def ingestChunks (tenant : String) (documents : List String)
    (metadatas : List Metadata) (ids : List String) (now : String) : List Document :=
  let metas := (metadatas.zip (ids.take metadatas.length)).map fun p =>
    ((p.1.set "tenant_id" (MVal.s tenant)).set "doc_id" (MVal.s p.2)).set
      "ingested_at" (MVal.s now)
  (documents.zip metas).map fun p => ⟨p.1, p.2⟩

/-- `RAGService.ingest_documents`.  `genIds` stands for the
`uuid.uuid4()` ids generated when `ids` is `None`; `now` for
`datetime.utcnow().isoformat()`; `addOutcome` for the outcome of
`vector_store.add_documents` (the one external write).  The Python loop
indexes `ids[i]` for `i` over `metadatas`, so when the caller passes
more metadata dicts than ids it raises `IndexError`, caught by the
`except` branch; any exception yields the failure dict
`{"success": False, "error": ...}` with no other keys and leaves the
store as it was. -/
def ingest_documents (tenant : String) (documents : List String)
    (metadatas : Option (List Metadata)) (ids : Option (List String))
    (genIds : List String) (now : String) (addOutcome : Except String Unit)
    (store : List Document) : IngestResult × List Document :=
  let ids := ids.getD genIds
  let metadatas := metadatas.getD (documents.map fun _ => [])
  if metadatas.length ≤ ids.length then
    let newChunks := ingestChunks tenant documents metadatas ids now
    match addOutcome with
    | .ok _ =>
        ({ success := true
           tenant_id := some tenant
           document_count := some documents.length
           document_ids := some ids
           error := none },
         store ++ newChunks)
    | .error e =>
        ({ success := false
           tenant_id := none
           document_count := none
           document_ids := none
           error := some ("Failed to ingest documents: " ++ e) },
         store)
  else
    ({ success := false
       tenant_id := none
       document_count := none
       document_ids := none
       error := some "Failed to ingest documents: list index out of range" },
     store)

/-- One `DELETE FROM langchain_pg_embedding WHERE
cmetadata->>'tenant_id' = :tenant_id AND cmetadata->>'doc_id' = :doc_id`
statement: keep exactly the rows that do not match both predicates. -/
def deleteOne (tenant doc_id : String) (store : List Document) : List Document :=
  store.filter fun c =>
    !(tenantMatch tenant c && decide (c.metadata.get "doc_id" = some (MVal.s doc_id)))

/-- `RAGService.delete_documents`: one delete statement per given id,
then a result dict whose `deleted_count` is the *number of ids given*
(the source reports `len(document_ids)`, not rows removed). -/
def delete_documents (tenant : String) (document_ids : List String)
    (store : List Document) : DeleteResult × List Document :=
  let store' := document_ids.foldl (fun s id => deleteOne tenant id s) store
  ({ success := true, deleted_count := some document_ids.length, error := none }, store')

/-- The first stamping loop of `DocumentProcessor.chunk_documents`:
`chunk.metadata['chunk_index'] = chunk_index` with a counter that starts
at 0 and increases by one per chunk. -/
def stampChunkIndex : Nat → List Document → List Document
  | _, [] => []
  | i, c :: l =>
      { c with metadata := c.metadata.set "chunk_index" (MVal.n i) } ::
        stampChunkIndex (i + 1) l

/-- The second stamping loop of `DocumentProcessor.chunk_documents`:
`chunk.metadata['chunk_total'] = len(chunks)`. -/
def stampChunkTotal (n : Nat) (c : Document) : Document :=
  { c with metadata := c.metadata.set "chunk_total" (MVal.n n) }

/-- `DocumentProcessor.chunk_documents`: split the documents with the
text splitter (an external LangChain component, abstracted as the
parameter `split`), then, when `add_chunk_metadata` is set, stamp
`chunk_index` 0,1,2,… and then `chunk_total := len(chunks)` on every
chunk. -/
def chunk_documents (split : List Document → List Document)
    (documents : List Document) (add_chunk_metadata : Bool) : List Document :=
  let chunks := split documents
  if add_chunk_metadata then
    let indexed := stampChunkIndex 0 chunks
    indexed.map (stampChunkTotal indexed.length)
  else chunks

/-- `DocumentProcessor.enrich_metadata`: write `tenant_id` and
`ingested_at` into every document's metadata, then copy the
caller-supplied additional metadata in, skipping the `tenant_id` key
("Don't override tenant_id"). -/
def enrich_metadata (documents : List Document) (tenant_id : String)
    (additional_metadata : Option Metadata) (now : String) : List Document :=
  documents.map fun doc =>
    let m := (doc.metadata.set "tenant_id" (MVal.s tenant_id)).set
      "ingested_at" (MVal.s now)
    let m := match additional_metadata with
      | none => m
      | some add =>
          add.foldl (fun acc kv => if kv.1 = "tenant_id" then acc else acc.set kv.1 kv.2) m
    { doc with metadata := m }

/-- `DocumentProcessor.process_pdf`: load the PDF (external
`PyPDFLoader`, abstracted as an `Except` of the loaded pages), chunk the
pages, enrich the metadata.  A load failure propagates as the raised
exception. -/
def process_pdf (split : List Document → List Document)
    (loaded : Except String (List Document)) (tenant_id : String)
    (additional_metadata : Option Metadata) (now : String) :
    Except String (List Document) :=
  match loaded with
  | .error e => .error e
  | .ok pages =>
      .ok (enrich_metadata (chunk_documents split pages true) tenant_id
        additional_metadata now)

/-- `RAGService.ingest_pdf`: process the PDF, then hand the chunk texts
and metadata to `ingest_documents` (with `ids = None`, so ids are
generated).  An exception out of processing yields the failure dict
`{"success": False, "error": "Failed to ingest PDF: ..."}`. -/
def ingest_pdf (split : List Document → List Document)
    (loaded : Except String (List Document)) (tenant_id : String)
    (additional_metadata : Option Metadata) (genIds : List String) (now : String)
    (addOutcome : Except String Unit) (store : List Document) :
    IngestResult × List Document :=
  match process_pdf split loaded tenant_id additional_metadata now with
  | .error e =>
      ({ success := false
         tenant_id := none
         document_count := none
         document_ids := none
         error := some ("Failed to ingest PDF: " ++ e) },
       store)
  | .ok chunks =>
      ingest_documents tenant_id (chunks.map (·.page_content))
        (some (chunks.map (·.metadata))) none genIds now addOutcome store

/-- A stored conversation message: session-scoped, ordered by creation
time with ties broken by insertion order (`seq`). -/
structure Msg where
  created_at : Nat
  seq : Nat
  role : String
  content : String
deriving DecidableEq, Repr

/-- Chronological order on messages: creation time, ties by insertion
order. -/
def msgLE (a b : Msg) : Prop :=
  a.created_at < b.created_at ∨ (a.created_at = b.created_at ∧ a.seq ≤ b.seq)

instance : DecidableRel msgLE := fun _ _ =>
  inferInstanceAs (Decidable (_ ∨ _))

instance : IsTotal Msg msgLE := ⟨fun a b => by
  rcases Nat.lt_trichotomy a.created_at b.created_at with h | h | h
  · exact Or.inl (Or.inl h)
  · rcases Nat.le_total a.seq b.seq with hs | hs
    · exact Or.inl (Or.inr ⟨h, hs⟩)
    · exact Or.inr (Or.inr ⟨h.symm, hs⟩)
  · exact Or.inr (Or.inl h)⟩

instance : IsTrans Msg msgLE := ⟨fun a b c hab hbc => by
  rcases hab with h1 | ⟨h1, h1s⟩ <;> rcases hbc with h2 | ⟨h2, h2s⟩
  · exact Or.inl (h1.trans h2)
  · exact Or.inl (h2 ▸ h1)
  · exact Or.inl (h1 ▸ h2)
  · exact Or.inr ⟨h1.trans h2, h1s.trans h2s⟩⟩

/-- Modelled from the spec: the conversation-memory implementation
(`src/services/conversation_memory.py`, imported by
`tests/unit/test_conversation_memory.py`) is not among the provided
sources.  Following §4.2 of the spec,
`get_history(session_id, max_messages, include_system)` reads the
session's messages ordered strictly chronologically by creation time
(ties by insertion order), truncates to the most recent `max_messages`
(oldest dropped first), maps roles `user`/`assistant` (plus `system`
when `include_system`) and drops unknown roles rather than raising. -/
def get_conversation_history (messages : List Msg) (max_messages : Nat)
    (include_system : Bool) : List Msg :=
  let sorted := List.insertionSort msgLE messages
  let recent := sorted.drop (sorted.length - max_messages)
  recent.filter fun m =>
    m.role == "user" || m.role == "assistant" || (include_system && m.role == "system")

/-- A tool descriptor as the agent executor sees it: name, priority
(lower tried first) and the required parameter names of its input
schema. -/
structure ToolSpec where
  name : String
  priority : Nat
  required : List String
deriving DecidableEq, Repr

/-- The flat key→value map produced by entity extraction. -/
abbrev Entities := List (String × String)

/-- A tool's required input schema is fully satisfied when every
required parameter name is present among the extracted entities. -/
def satisfies (entities : Entities) (t : ToolSpec) : Bool :=
  t.required.all fun k => entities.any fun p => p.1 = k

/-- Priority order on tools (lower number tried first; ties keep the
agent's configured list order, the sort being stable). -/
def toolLE (a b : ToolSpec) : Prop := a.priority ≤ b.priority

instance : DecidableRel toolLE := fun a b =>
  inferInstanceAs (Decidable (a.priority ≤ b.priority))

instance : IsTotal ToolSpec toolLE := ⟨fun a b => Nat.le_total a.priority b.priority⟩

instance : IsTrans ToolSpec toolLE := ⟨fun _ _ _ hab hbc => Nat.le_trans hab hbc⟩

/-- Modelled from the spec: the agent-executor implementation
(`src/services/domain_agents.py`, imported by
`tests/unit/test_tool_calls.py`) is not among the provided sources.
Following §4.4 of the spec, tool selection walks the enabled tools in
priority order (lower number first) and invokes the first tool whose
required input schema is fully satisfied by the extracted entities; an
unsatisfiable tool is skipped without error and without retry. -/
def select_tool (tools : List ToolSpec) (entities : Entities) : Option ToolSpec :=
  (List.insertionSort toolLE tools).find? (satisfies entities)

/-- Modelled from the spec: the turn's `tool_calls` metadata — the
selected tool's call, or `[]` when no tool's schema is satisfiable (a
valid outcome, the agent answers from the model alone). -/
def tool_calls (tools : List ToolSpec) (entities : Entities) : List ToolSpec :=
  match select_tool tools entities with
  | none => []
  | some t => [t]

/-! ### Helper lemmas about the embedded definitions -/

theorem Metadata.get_set_self (m : Metadata) (k : String) (v : MVal) :
    (m.set k v).get k = some v := by
  induction m with
  | nil => simp [Metadata.set, Metadata.get]
  | cons kv m ih =>
      by_cases h : kv.1 = k
      · simp [Metadata.set, Metadata.get, h]
      · simp [Metadata.set, Metadata.get, h, ih]

theorem Metadata.get_set_ne (m : Metadata) {k k' : String} (v : MVal) (h : k' ≠ k) :
    (m.set k' v).get k = m.get k := by
  induction m with
  | nil => simp [Metadata.set, Metadata.get, h]
  | cons kv m ih =>
      by_cases hk : kv.1 = k'
      · simp [Metadata.set, Metadata.get, hk, h]
      · simp only [Metadata.set, hk, if_false]
        by_cases hk2 : kv.1 = k
        · simp [Metadata.get, hk2]
        · simp [Metadata.get, hk2, ih]

theorem ingestChunks_tenant {tenant now : String} {documents : List String}
    {metadatas : List Metadata} {ids : List String} :
    ∀ c ∈ ingestChunks tenant documents metadatas ids now,
      c.metadata.get "tenant_id" = some (MVal.s tenant) := by
  intro c hc
  simp only [ingestChunks, List.mem_map] at hc
  obtain ⟨⟨d, m⟩, hp, rfl⟩ := hc
  have hm := (List.of_mem_zip hp).2
  simp only [List.mem_map] at hm
  obtain ⟨mq, _, hstamp⟩ := hm
  show m.get "tenant_id" = some (MVal.s tenant)
  rw [← hstamp, Metadata.get_set_ne _ _ (by decide),
    Metadata.get_set_ne _ _ (by decide), Metadata.get_set_self]

theorem rankedDocs_length (dist : String → String → ℚ) (q : String) (i : Nat)
    (l : List Document) : (rankedDocs dist q i l).length = l.length := by
  induction l generalizing i with
  | nil => rfl
  | cons c l ih => simp [rankedDocs, ih]

theorem rankedDocs_get (dist : String → String → ℚ) (q : String) (i : Nat)
    (l : List Document) (j : Nat) (h : j < l.length)
    (h2 : j < (rankedDocs dist q i l).length) :
    (rankedDocs dist q i l).get ⟨j, h2⟩ =
      ⟨(l.get ⟨j, h⟩).page_content, (l.get ⟨j, h⟩).metadata,
        dist q (l.get ⟨j, h⟩).page_content, i + j⟩ := by
  induction l generalizing i j with
  | nil => exact absurd h (Nat.not_lt_zero j)
  | cons c l ih =>
      cases j with
      | zero => simp [rankedDocs]
      | succ j =>
          have hj : j < l.length := Nat.lt_of_succ_lt_succ h
          have hj2 : j < (rankedDocs dist q (i + 1) l).length := by
            rw [rankedDocs_length]; exact hj
          simpa [rankedDocs, Nat.add_assoc, Nat.add_comm 1 j] using ih (i + 1) j hj hj2

theorem rankedDocs_rank (dist : String → String → ℚ) (q : String) (i : Nat)
    (l : List Document) (j : Nat) (h : j < (rankedDocs dist q i l).length) :
    ((rankedDocs dist q i l).get ⟨j, h⟩).rank = i + j := by
  have h2 : j < l.length := by rw [rankedDocs_length] at h; exact h
  rw [rankedDocs_get dist q i l j h2 h]

theorem rankedDocs_mem {dist : String → String → ℚ} {q : String} {i : Nat}
    {l : List Document} {d : QueryDoc} (hd : d ∈ rankedDocs dist q i l) :
    ∃ c ∈ l, d.content = c.page_content ∧ d.metadata = c.metadata ∧
      d.distance = dist q c.page_content := by
  induction l generalizing i with
  | nil => simp [rankedDocs] at hd
  | cons c l ih =>
      simp only [rankedDocs, List.mem_cons] at hd
      rcases hd with rfl | hd
      · exact ⟨c, List.mem_cons_self c l, rfl, rfl, rfl⟩
      · obtain ⟨c2, hc2, he⟩ := ih hd
        exact ⟨c2, List.mem_cons_of_mem c hc2, he⟩

theorem rankedDocs_pairwise {dist : String → String → ℚ} {q : String}
    {l : List Document} (i : Nat) (h : List.Pairwise (distLE dist q) l) :
    List.Pairwise (fun d e : QueryDoc => d.distance ≤ e.distance)
      (rankedDocs dist q i l) := by
  induction l generalizing i with
  | nil => simp [rankedDocs]
  | cons c l ih =>
      rw [List.pairwise_cons] at h
      refine List.Pairwise.cons ?_ (ih (i + 1) h.2)
      intro e he
      obtain ⟨c2, hc2, _, _, hdist⟩ := rankedDocs_mem he
      simpa [hdist] using h.1 c2 hc2

/-- A concrete distance function used by witnesses: every pair of texts
at distance 0. -/
def dist0 : String → String → ℚ := fun _ _ => 0

/-- A concrete distance function used by witnesses: distance is the
length of the stored text. -/
def distLen : String → String → ℚ := fun _ b => (b.length : ℚ)

/-! ### Claim theorems -/

/-- Claim C3: a successful `query_knowledge_base` call returns at most
`top_k` documents, ordered by ascending cosine distance (closest
first); the document at position `j` carries its distance score (the
distance of its own content to the query) and a `rank` field equal to
its 1-based position `j + 1`. -/
theorem query_top_k_ordering (dist : String → String → ℚ) (tenant q : String)
    (top_k : Nat) (store : List Document) :
    (query_knowledge_base dist tenant q top_k store).documents.length ≤ top_k ∧
    List.Pairwise (fun d e : QueryDoc => d.distance ≤ e.distance)
      (query_knowledge_base dist tenant q top_k store).documents ∧
    (∀ j (hj : j < (query_knowledge_base dist tenant q top_k store).documents.length),
      ((query_knowledge_base dist tenant q top_k store).documents.get ⟨j, hj⟩).rank
        = j + 1) ∧
    (∀ d ∈ (query_knowledge_base dist tenant q top_k store).documents,
      d.distance = dist q d.content) ∧
    (query_knowledge_base dist tenant q top_k store).success = true := by
  have hdocs : (query_knowledge_base dist tenant q top_k store).documents =
      rankedDocs dist q 1 ((List.insertionSort (distLE dist q)
        (store.filter (tenantMatch tenant))).take top_k) := rfl
  refine ⟨?_, ?_, ?_, ?_, rfl⟩
  · rw [hdocs, rankedDocs_length, List.length_take]
    exact min_le_left _ _
  · rw [hdocs]
    refine rankedDocs_pairwise 1 ?_
    exact ((List.sorted_insertionSort (distLE dist q) _).sublist
      (List.take_sublist _ _))
  · intro j hj
    exact (rankedDocs_rank dist q 1 _ j hj).trans (Nat.add_comm 1 j)
  · intro d hd
    rw [hdocs] at hd
    obtain ⟨c, _, hcont, _, hdist⟩ := rankedDocs_mem hd
    rw [hdist, hcont]

/-- Claim C3 witness: concrete instance of the ordering theorem. -/
theorem query_top_k_ordering_witness :
    ((query_knowledge_base distLen "t1" "q" 5
        [⟨"alpha", [("tenant_id", MVal.s "t1")]⟩,
         ⟨"be", [("tenant_id", MVal.s "t1")]⟩]).documents.get
      ⟨0, by decide⟩).rank = 0 + 1 :=
  (query_top_k_ordering distLen "t1" "q" 5
    [⟨"alpha", [("tenant_id", MVal.s "t1")]⟩,
     ⟨"be", [("tenant_id", MVal.s "t1")]⟩]).2.2.1 0 (by decide)

/-- Claim C7: a query against a corpus with zero chunks matching the
tenant (in particular an empty corpus) returns a successful result with
an empty document list and `total_results = 0`, not an error. -/
theorem query_zero_matches (dist : String → String → ℚ) (tenant q : String)
    (top_k : Nat) (store : List Document)
    (h : ∀ c ∈ store, c.metadata.get "tenant_id" ≠ some (MVal.s tenant)) :
    query_knowledge_base dist tenant q top_k store =
      { success := true, tenant_id := tenant, query := q,
        documents := [], total_results := 0 } := by
  have hf : store.filter (tenantMatch tenant) = [] := by
    rw [List.filter_eq_nil_iff]
    intro c hc
    simp [tenantMatch, h c hc]
  simp [query_knowledge_base, hf, rankedDocs]

/-- Claim C7 witness: a concrete empty-and-foreign corpus queried under
tenant `t1` yields the empty successful result. -/
theorem query_zero_matches_witness :
    query_knowledge_base dist0 "t1" "anything" 5
        [⟨"foreign", [("tenant_id", MVal.s "t2")]⟩] =
      { success := true, tenant_id := "t1", query := "anything",
        documents := [], total_results := 0 } :=
  query_zero_matches dist0 "t1" "anything" 5
    [⟨"foreign", [("tenant_id", MVal.s "t2")]⟩] (by decide)

/-- Every hit returned by the tenant-filtered similarity search carries
the querying tenant's id in its metadata. -/
theorem query_docs_tenant (dist : String → String → ℚ) (tenant q : String)
    (top_k : Nat) (store : List Document) :
    ∀ d ∈ (query_knowledge_base dist tenant q top_k store).documents,
      d.metadata.get "tenant_id" = some (MVal.s tenant) := by
  intro d hd
  have hdocs : (query_knowledge_base dist tenant q top_k store).documents =
      rankedDocs dist q 1 ((List.insertionSort (distLE dist q)
        (store.filter (tenantMatch tenant))).take top_k) := rfl
  rw [hdocs] at hd
  obtain ⟨c, hc, _, hmeta, _⟩ := rankedDocs_mem hd
  have hc2 : c ∈ store.filter (tenantMatch tenant) :=
    (List.perm_insertionSort (distLE dist q) _).mem_iff.mp
      ((List.take_sublist _ _).subset hc)
  have hmatch := (List.mem_filter.mp hc2).2
  rw [hmeta]
  simpa [tenantMatch] using hmatch

/-- Claim C1: a chunk ingested under tenant A is never returned by a
query issued under a distinct tenant B: every returned document carries
tenant id B in its metadata, and in particular its metadata differs
from that of any chunk the ingestion stamped with tenant A (the tenant
filter is part of the search, which is embedded as filter–sort–take,
not a post-filter). -/
theorem ingest_query_tenant_isolation (dist : String → String → ℚ)
    (store : List Document) (tA tB q now : String) (documents : List String)
    (metadatas : List Metadata) (ids : List String) (top_k : Nat)
    (hk : 1 ≤ top_k) (hAB : tA ≠ tB) (c : Document)
    (hc : c ∈ ingestChunks tA documents metadatas ids now) :
    ∀ d ∈ (query_knowledge_base dist tB q top_k
        (store ++ ingestChunks tA documents metadatas ids now)).documents,
      d.metadata.get "tenant_id" = some (MVal.s tB) ∧ d.metadata ≠ c.metadata := by
  intro d hd
  have hB := query_docs_tenant dist tB q top_k _ d hd
  refine ⟨hB, ?_⟩
  intro heq
  have hA := ingestChunks_tenant c hc
  rw [heq, hA] at hB
  exact hAB (by simpa using hB)

/-- Claim C1 witness: tenant B's own corpus is returned, the chunk
ingested under A is not. -/
theorem ingest_query_tenant_isolation_witness :
    (⟨"bdoc", [("tenant_id", MVal.s "B")], 0, 1⟩ : QueryDoc).metadata.get "tenant_id"
        = some (MVal.s "B") ∧
    (⟨"bdoc", [("tenant_id", MVal.s "B")], 0, 1⟩ : QueryDoc).metadata ≠
      (⟨"secret doc", [("tenant_id", MVal.s "A"), ("doc_id", MVal.s "d1"),
        ("ingested_at", MVal.s "T0")]⟩ : Document).metadata :=
  ingest_query_tenant_isolation dist0 [⟨"bdoc", [("tenant_id", MVal.s "B")]⟩]
    "A" "B" "q" "T0" ["secret doc"] [[]] ["d1"] 1 (by decide) (by decide)
    ⟨"secret doc", [("tenant_id", MVal.s "A"), ("doc_id", MVal.s "d1"),
      ("ingested_at", MVal.s "T0")]⟩ (by decide)
    ⟨"bdoc", [("tenant_id", MVal.s "B")], 0, 1⟩ (by decide)

/-- A concrete distance function used by witnesses: 0 between equal
texts, 1 otherwise (the idealized behavior of embedding both texts with
the same model). -/
def distEq : String → String → ℚ := fun a b => if a = b then 0 else 1

/-- Claim C6 (round-trip): after a successful ingest, querying under the
same tenant with the exact text of one of the ingested chunks returns
that chunk as the top (rank 1) result at distance 0, provided the
distance function vanishes on identical texts, is nonnegative, and
vanishes on no other stored chunk. -/
theorem roundtrip_query_top (dist : String → String → ℚ)
    (store : List Document) (tenant now q : String) (documents : List String)
    (metadatas : List Metadata) (ids genIds : List String) (top_k : Nat)
    (c : Document) (r : IngestResult) (store2 : List Document)
    (hing : ingest_documents tenant documents (some metadatas) (some ids) genIds now
        (Except.ok ()) store = (r, store2))
    (hlen : metadatas.length ≤ ids.length)
    (hc : c ∈ ingestChunks tenant documents metadatas ids now)
    (hq : q = c.page_content)
    (hk : 1 ≤ top_k)
    (hzero : dist q c.page_content = 0)
    (hnonneg : ∀ s, 0 ≤ dist q s)
    (huniq : ∀ ch ∈ store2, dist q ch.page_content = 0 → ch = c) :
    ∃ d, (query_knowledge_base dist tenant q top_k store2).documents.head? = some d ∧
      d.rank = 1 ∧ d.distance = 0 ∧ d.content = c.page_content ∧
      d.metadata = c.metadata := by
  have hstore2 : store2 = store ++ ingestChunks tenant documents metadatas ids now := by
    simp only [ingest_documents, Option.getD_some, if_pos hlen] at hing
    exact (Prod.mk.injEq _ _ _ _ |>.mp hing).2.symm
  have hcs : c ∈ store2 := by
    rw [hstore2]
    exact List.mem_append_right store hc
  have hcf : c ∈ store2.filter (tenantMatch tenant) := by
    refine List.mem_filter.mpr ⟨hcs, ?_⟩
    simp [tenantMatch, ingestChunks_tenant c hc]
  have hcS : c ∈ List.insertionSort (distLE dist q)
      (store2.filter (tenantMatch tenant)) :=
    (List.perm_insertionSort (distLE dist q) _).mem_iff.mpr hcf
  obtain ⟨hd, tl, hS⟩ : ∃ hd tl, List.insertionSort (distLE dist q)
      (store2.filter (tenantMatch tenant)) = hd :: tl := by
    cases hSc : List.insertionSort (distLE dist q)
        (store2.filter (tenantMatch tenant)) with
    | nil => rw [hSc] at hcS; cases hcS
    | cons a l => exact ⟨a, l, rfl⟩
  have hsorted := List.sorted_insertionSort (distLE dist q)
    (store2.filter (tenantMatch tenant))
  rw [hS, List.sorted_cons] at hsorted
  have hhdle : dist q hd.page_content ≤ 0 := by
    rw [hS] at hcS
    rcases List.mem_cons.mp hcS with rfl | hctl
    · exact le_of_eq hzero
    · have := hsorted.1 c hctl
      simpa [distLE, hzero] using this
  have hhd0 : dist q hd.page_content = 0 :=
    le_antisymm hhdle (hnonneg hd.page_content)
  have hhdc : hd = c := by
    refine huniq hd ?_ hhd0
    have : hd ∈ List.insertionSort (distLE dist q)
        (store2.filter (tenantMatch tenant)) := by
      rw [hS]; exact List.mem_cons_self hd tl
    exact List.mem_of_mem_filter
      ((List.perm_insertionSort (distLE dist q) _).mem_iff.mp this)
  obtain ⟨k, rfl⟩ : ∃ k, top_k = k + 1 := ⟨top_k - 1, by omega⟩
  refine ⟨⟨hd.page_content, hd.metadata, dist q hd.page_content, 1⟩, ?_, rfl, hhd0, ?_, ?_⟩
  · have hdocs : (query_knowledge_base dist tenant q (k + 1) store2).documents =
        rankedDocs dist q 1 ((List.insertionSort (distLE dist q)
          (store2.filter (tenantMatch tenant))).take (k + 1)) := rfl
    rw [hdocs, hS, List.take_succ_cons]
    rfl
  · rw [hhdc]
  · rw [hhdc]

/-- Claim C6 witness: ingesting one document and querying its exact text
returns it at rank 1, distance 0. -/
theorem roundtrip_query_top_witness :
    (query_knowledge_base distEq "T" "doc one" 3
        (ingestChunks "T" ["doc one"] [[]] ["i1"] "now0")).documents.head? =
      some ⟨"doc one", [("tenant_id", MVal.s "T"), ("doc_id", MVal.s "i1"),
        ("ingested_at", MVal.s "now0")], 0, 1⟩ := by
  obtain ⟨d, hhead, hrank, hdist, hcont, hmeta⟩ :=
    roundtrip_query_top distEq [] "T" "now0" "doc one" ["doc one"] [[]] ["i1"]
      ["g1"] 3
      ⟨"doc one", [("tenant_id", MVal.s "T"), ("doc_id", MVal.s "i1"),
        ("ingested_at", MVal.s "now0")]⟩
      { success := true, tenant_id := some "T", document_count := some 1,
        document_ids := some ["i1"], error := none }
      (ingestChunks "T" ["doc one"] [[]] ["i1"] "now0")
      rfl (by decide) (by decide) rfl (by decide) (by decide)
      (fun s => by simp only [distEq]; split <;> norm_num)
      (by decide)
  rw [hhead]
  cases d with
  | mk c m di r =>
      simp only at hrank hdist hcont hmeta
      rw [hrank, hdist, hcont, hmeta]

/-- A chunk of another tenant survives every per-id delete statement. -/
theorem mem_deleteFold_of_other {tenant : String} {c : Document}
    (hother : tenantMatch tenant c = false) :
    ∀ (ds : List String) (s : List Document), c ∈ s →
      c ∈ ds.foldl (fun s id => deleteOne tenant id s) s := by
  intro ds
  induction ds with
  | nil => intro s hc; exact hc
  | cons d ds ih =>
      intro s hc
      refine ih _ (List.mem_filter.mpr ⟨hc, ?_⟩)
      simp [hother]

/-- A chunk removed by the delete loop matched the tenant predicate and
one of the given ids. -/
theorem removed_deleteFold {tenant : String} {c : Document} :
    ∀ (ds : List String) (s : List Document), c ∈ s →
      c ∉ ds.foldl (fun s id => deleteOne tenant id s) s →
      tenantMatch tenant c = true ∧
        ∃ id ∈ ds, c.metadata.get "doc_id" = some (MVal.s id) := by
  intro ds
  induction ds with
  | nil => intro s hc hnot; exact absurd hc hnot
  | cons d ds ih =>
      intro s hc hnot
      by_cases hmem : c ∈ deleteOne tenant d s
      · obtain ⟨ht, id, hid, hdoc⟩ := ih _ hmem hnot
        exact ⟨ht, id, List.mem_cons_of_mem d hid, hdoc⟩
      · cases hp : (!(tenantMatch tenant c &&
            decide (c.metadata.get "doc_id" = some (MVal.s d)))) with
        | true => exact absurd (List.mem_filter.mpr ⟨hc, hp⟩) hmem
        | false =>
            have h2 : tenantMatch tenant c = true ∧
                c.metadata.get "doc_id" = some (MVal.s d) := by
              simpa using hp
            exact ⟨h2.1, d, List.mem_cons_self d ds, h2.2⟩

/-- The delete loop leaves the other-tenant part of the store literally
unchanged (same rows, same order, same multiplicity). -/
theorem deleteFold_filter_other (tenant : String) :
    ∀ (ds : List String) (s : List Document),
      (ds.foldl (fun s id => deleteOne tenant id s) s).filter
          (fun c => !(tenantMatch tenant c)) =
        s.filter (fun c => !(tenantMatch tenant c)) := by
  intro ds
  induction ds with
  | nil => intro s; rfl
  | cons d ds ih =>
      intro s
      rw [List.foldl_cons, ih]
      show (deleteOne tenant d s).filter (fun c => !(tenantMatch tenant c)) =
        s.filter (fun c => !(tenantMatch tenant c))
      rw [deleteOne, List.filter_filter]
      refine List.filter_congr ?_
      intro c _
      cases h : tenantMatch tenant c <;> simp [h]

/-- Claim C9 (frame property of deletion): `delete_documents(T, ids)`
removes only chunks whose metadata tenant id is T and whose doc id is
among the given ids; chunks of any other tenant survive unchanged (the
other-tenant part of the store is literally equal before and after),
even when their doc id appears in the list. -/
theorem delete_documents_frame (tenant : String) (document_ids : List String)
    (store : List Document) :
    (∀ c ∈ store, c.metadata.get "tenant_id" ≠ some (MVal.s tenant) →
      c ∈ (delete_documents tenant document_ids store).2) ∧
    (∀ c ∈ store, c ∉ (delete_documents tenant document_ids store).2 →
      c.metadata.get "tenant_id" = some (MVal.s tenant) ∧
      ∃ id ∈ document_ids, c.metadata.get "doc_id" = some (MVal.s id)) ∧
    (delete_documents tenant document_ids store).2.filter
        (fun c => !(tenantMatch tenant c)) =
      store.filter (fun c => !(tenantMatch tenant c)) := by
  refine ⟨?_, ?_, ?_⟩
  · intro c hc hne
    refine mem_deleteFold_of_other ?_ document_ids store hc
    simp [tenantMatch, hne]
  · intro c hc hnot
    obtain ⟨ht, hdoc⟩ := removed_deleteFold document_ids store hc hnot
    exact ⟨of_decide_eq_true ht, hdoc⟩
  · exact deleteFold_filter_other tenant document_ids store

/-- Claim C9 witness: deleting doc id `d1` under tenant T leaves the
other tenant's chunk with the same doc id in place. -/
theorem delete_documents_frame_witness :
    (⟨"b", [("tenant_id", MVal.s "U"), ("doc_id", MVal.s "d1")]⟩ : Document) ∈
      (delete_documents "T" ["d1"]
        [⟨"a", [("tenant_id", MVal.s "T"), ("doc_id", MVal.s "d1")]⟩,
         ⟨"b", [("tenant_id", MVal.s "U"), ("doc_id", MVal.s "d1")]⟩]).2 :=
  (delete_documents_frame "T" ["d1"]
    [⟨"a", [("tenant_id", MVal.s "T"), ("doc_id", MVal.s "d1")]⟩,
     ⟨"b", [("tenant_id", MVal.s "U"), ("doc_id", MVal.s "d1")]⟩]).1
    ⟨"b", [("tenant_id", MVal.s "U"), ("doc_id", MVal.s "d1")]⟩
    (by decide) (by decide)

/-- Copying additional metadata in while skipping the `tenant_id` key
preserves the stored tenant id. -/
theorem foldl_additional_preserves_tenant (add : Metadata) :
    ∀ (acc : Metadata) (v : MVal), acc.get "tenant_id" = some v →
      (add.foldl (fun acc kv =>
          if kv.1 = "tenant_id" then acc else acc.set kv.1 kv.2) acc).get "tenant_id"
        = some v := by
  induction add with
  | nil => intro acc v h; exact h
  | cons kv add ih =>
      intro acc v h
      rw [List.foldl_cons]
      by_cases hk : kv.1 = "tenant_id"
      · rw [if_pos hk]; exact ih acc v h
      · rw [if_neg hk]
        exact ih _ v (by rw [Metadata.get_set_ne _ _ hk]; exact h)

/-- Claim C10: the tenant id persisted with every chunk equals the
tenant id argument of the call — both in `ingest_documents` (the direct
metadata loop) and in `enrich_metadata` (which skips a caller-supplied
`tenant_id` key) — even when the caller-supplied metadata carries a
`tenant_id` of its own. -/
theorem ingest_tenant_not_overridable (tenant now : String)
    (documents : List String) (metadatas : List Metadata) (ids : List String)
    (docs : List Document) (additional : Option Metadata) :
    (∀ c ∈ ingestChunks tenant documents metadatas ids now,
      c.metadata.get "tenant_id" = some (MVal.s tenant)) ∧
    (∀ c ∈ enrich_metadata docs tenant additional now,
      c.metadata.get "tenant_id" = some (MVal.s tenant)) := by
  refine ⟨fun c hc => ingestChunks_tenant c hc, ?_⟩
  intro c hc
  simp only [enrich_metadata, List.mem_map] at hc
  obtain ⟨doc, _, rfl⟩ := hc
  have hbase : ((doc.metadata.set "tenant_id" (MVal.s tenant)).set
      "ingested_at" (MVal.s now)).get "tenant_id" = some (MVal.s tenant) := by
    rw [Metadata.get_set_ne _ _ (by decide), Metadata.get_set_self]
  cases additional with
  | none => exact hbase
  | some add => exact foldl_additional_preserves_tenant add _ _ hbase

/-- Claim C10 witness: caller metadata carrying `tenant_id = "EVIL"` is
overridden to the call's tenant — the chunk actually persisted for that
call stores `tenant_id = "T"`. -/
theorem ingest_tenant_not_overridable_witness :
    (⟨"d", [("tenant_id", MVal.s "T"), ("doc_id", MVal.s "i1"),
      ("ingested_at", MVal.s "now0")]⟩ : Document).metadata.get "tenant_id" =
      some (MVal.s "T") :=
  (ingest_tenant_not_overridable "T" "now0" ["d"]
    [[("tenant_id", MVal.s "EVIL")]] ["i1"] [⟨"d", []⟩]
    (some [("tenant_id", MVal.s "EVIL")])).1
    ⟨"d", [("tenant_id", MVal.s "T"), ("doc_id", MVal.s "i1"),
      ("ingested_at", MVal.s "now0")]⟩ (by decide)

theorem stampChunkIndex_length (i : Nat) (l : List Document) :
    (stampChunkIndex i l).length = l.length := by
  induction l generalizing i with
  | nil => rfl
  | cons c l ih => simp [stampChunkIndex, ih]

theorem stampChunkIndex_get_index (i : Nat) (l : List Document) (j : Nat)
    (h : j < (stampChunkIndex i l).length) :
    ((stampChunkIndex i l).get ⟨j, h⟩).metadata.get "chunk_index" =
      some (MVal.n (i + j)) := by
  induction l generalizing i j with
  | nil => simp [stampChunkIndex] at h
  | cons c l ih =>
      cases j with
      | zero => simp [stampChunkIndex, Metadata.get_set_self]
      | succ j =>
          have h2 : j < (stampChunkIndex (i + 1) l).length := by
            rw [stampChunkIndex_length] at h ⊢
            exact Nat.lt_of_succ_lt_succ h
          have := ih (i + 1) j h2
          simpa [stampChunkIndex, Nat.add_assoc, Nat.add_comm 1 j] using this

/-- Claim C5: with chunk metadata enabled, every chunk of the produced
batch reports `chunk_total` equal to the batch's length, and the chunk
at position `j` reports `chunk_index = j` — the count and the per-chunk
metadata are mutually consistent, whatever the text splitter did. -/
theorem chunk_metadata_consistency (split : List Document → List Document)
    (documents : List Document) (hne : documents ≠ []) :
    (∀ c ∈ chunk_documents split documents true,
      c.metadata.get "chunk_total" =
        some (MVal.n (chunk_documents split documents true).length)) ∧
    (∀ j (hj : j < (chunk_documents split documents true).length),
      ((chunk_documents split documents true).get ⟨j, hj⟩).metadata.get "chunk_index"
        = some (MVal.n j)) := by
  have hdef : chunk_documents split documents true =
      (stampChunkIndex 0 (split documents)).map
        (stampChunkTotal (stampChunkIndex 0 (split documents)).length) := rfl
  have hlen : (chunk_documents split documents true).length =
      (stampChunkIndex 0 (split documents)).length := by
    rw [hdef, List.length_map]
  constructor
  · intro c hc
    rw [hdef] at hc
    simp only [List.mem_map] at hc
    obtain ⟨c0, _, rfl⟩ := hc
    rw [hlen]
    exact Metadata.get_set_self _ _ _
  · intro j hj
    have hj2 : j < (stampChunkIndex 0 (split documents)).length := hlen ▸ hj
    have hget : (chunk_documents split documents true).get ⟨j, hj⟩ =
        stampChunkTotal (stampChunkIndex 0 (split documents)).length
          ((stampChunkIndex 0 (split documents)).get ⟨j, hj2⟩) := by
      simp only [List.get_eq_getElem]
      exact List.getElem_map _
    rw [hget]
    show (((stampChunkIndex 0 (split documents)).get ⟨j, hj2⟩).metadata.set
        "chunk_total" (MVal.n _)).get "chunk_index" = some (MVal.n j)
    rw [Metadata.get_set_ne _ _ (by decide)]
    simpa using stampChunkIndex_get_index 0 (split documents) j hj2

/-- Claim C5 witness: an identity splitter on two pages yields chunks
whose `chunk_total` is 2 and whose `chunk_index` is the position. -/
theorem chunk_metadata_consistency_witness :
    ((chunk_documents (fun l => l) [⟨"page one", []⟩, ⟨"page two", []⟩] true).get
      ⟨1, by decide⟩).metadata.get "chunk_index" = some (MVal.n 1) :=
  (chunk_metadata_consistency (fun l => l) [⟨"page one", []⟩, ⟨"page two", []⟩]
    (by decide)).2 1 (by decide)

/-- Claim C2 counterexample: a concrete ingest call in which the
vector-store write fails.  The operation reports failure, but the
failure dict carries no count of the chunks persisted at all — its
`document_count` key is absent (the Python failure dict is
`{"success": False, "error": ...}` only), contradicting the claim that
"the failure report includes the count of chunks actually persisted". -/
theorem ingest_failure_report_has_no_count :
    (ingest_documents "t1" ["alpha", "beta"] none none ["id1", "id2"] "2026-01-01"
        (Except.error "connection reset") []).1.success = false ∧
    (ingest_documents "t1" ["alpha", "beta"] none none ["id1", "id2"] "2026-01-01"
        (Except.error "connection reset") []).1.document_count = none ∧
    (ingest_documents "t1" ["alpha", "beta"] none none ["id1", "id2"] "2026-01-01"
        (Except.error "connection reset") []).1.error =
      some "Failed to ingest documents: connection reset" :=
  ⟨rfl, rfl, rfl⟩

/-- Claim C2 as amended: a failure after loading aborts the remaining
batch (the store is left exactly as it was — nothing further is
persisted) and reports failure with an error message, but the failure
report does not include any count of persisted chunks: its
`document_count` and `document_ids` keys are absent.  This covers the
`ingest_documents` write failure and the `ingest_pdf` load failure. -/
theorem ingest_failure_aborts_without_count (tenant now e le2 : String)
    (documents : List String) (metadatas : Option (List Metadata))
    (ids : Option (List String)) (genIds : List String) (store : List Document)
    (split : List Document → List Document) (additional : Option Metadata) :
    ((ingest_documents tenant documents metadatas ids genIds now
        (Except.error e) store).1.success = false ∧
     (ingest_documents tenant documents metadatas ids genIds now
        (Except.error e) store).1.document_count = none ∧
     (ingest_documents tenant documents metadatas ids genIds now
        (Except.error e) store).1.document_ids = none ∧
     (ingest_documents tenant documents metadatas ids genIds now
        (Except.error e) store).1.error.isSome = true ∧
     (ingest_documents tenant documents metadatas ids genIds now
        (Except.error e) store).2 = store) ∧
    ((ingest_pdf split (Except.error le2) tenant additional genIds now
        (Except.error e) store).1.success = false ∧
     (ingest_pdf split (Except.error le2) tenant additional genIds now
        (Except.error e) store).1.document_count = none ∧
     (ingest_pdf split (Except.error le2) tenant additional genIds now
        (Except.error e) store).1.error =
       some ("Failed to ingest PDF: " ++ le2) ∧
     (ingest_pdf split (Except.error le2) tenant additional genIds now
        (Except.error e) store).2 = store) := by
  refine ⟨?_, rfl, rfl, rfl, rfl⟩
  unfold ingest_documents
  simp only []
  refine ⟨?_, ?_, ?_, ?_, ?_⟩ <;> split <;> rfl

/-- Claim C4: on a session whose stored messages all have known roles
(`user`/`assistant`), `get_conversation_history` with
`max_messages = N < M` returns exactly N messages, in non-decreasing
creation-time order; every returned message is a stored one, and every
stored message left out is chronologically no later than every returned
one (the N most recent are returned, oldest dropped first). -/
theorem get_history_recent_ordered (messages : List Msg) (N : Nat)
    (include_system : Bool)
    (hroles : ∀ m ∈ messages, m.role = "user" ∨ m.role = "assistant")
    (hMN : N < messages.length) :
    (get_conversation_history messages N include_system).length = N ∧
    List.Pairwise (fun a b : Msg => a.created_at ≤ b.created_at)
      (get_conversation_history messages N include_system) ∧
    (∀ m ∈ get_conversation_history messages N include_system, m ∈ messages) ∧
    (∀ m ∈ messages, m ∉ get_conversation_history messages N include_system →
      ∀ m2 ∈ get_conversation_history messages N include_system, msgLE m m2) := by
  have hperm := List.perm_insertionSort msgLE messages
  have hlenS : (List.insertionSort msgLE messages).length = messages.length :=
    hperm.length_eq
  have hfil : ∀ m ∈ (List.insertionSort msgLE messages).drop
      ((List.insertionSort msgLE messages).length - N),
      (m.role == "user" || m.role == "assistant" ||
        (include_system && m.role == "system")) = true := by
    intro m hm
    have hmem : m ∈ messages := hperm.mem_iff.mp (List.drop_subset _ _ hm)
    rcases hroles m hmem with h | h <;> simp [h]
  have hout : get_conversation_history messages N include_system =
      (List.insertionSort msgLE messages).drop
        ((List.insertionSort msgLE messages).length - N) :=
    List.filter_eq_self.mpr hfil
  refine ⟨?_, ?_, ?_, ?_⟩
  · rw [hout, List.length_drop, hlenS]
    omega
  · rw [hout]
    refine List.Pairwise.imp ?_
      ((List.sorted_insertionSort msgLE messages).sublist (List.drop_sublist _ _))
    intro a b hab
    rcases hab with h | h
    · exact Nat.le_of_lt h
    · exact le_of_eq h.1
  · intro m hm
    rw [hout] at hm
    exact hperm.mem_iff.mp (List.drop_subset _ _ hm)
  · intro m hm hnot m2 hm2
    rw [hout] at hnot hm2
    have hmS : m ∈ List.insertionSort msgLE messages := hperm.mem_iff.mpr hm
    have hsplit := List.take_append_drop
      ((List.insertionSort msgLE messages).length - N)
      (List.insertionSort msgLE messages)
    have hsorted := List.sorted_insertionSort msgLE messages
    rw [← hsplit] at hmS hsorted
    rcases List.mem_append.mp hmS with hmt | hmd
    · exact (List.pairwise_append.mp hsorted).2.2 m hmt m2 hm2
    · exact absurd hmd hnot

/-- Claim C4 witness: three stored turns, `max_messages = 2` returns the
two most recent. -/
theorem get_history_recent_ordered_witness :
    (get_conversation_history
      [⟨1, 0, "user", "Hello"⟩, ⟨2, 1, "assistant", "Hi there"⟩,
       ⟨3, 2, "user", "What did I just ask"⟩] 2 false).length = 2 :=
  (get_history_recent_ordered
    [⟨1, 0, "user", "Hello"⟩, ⟨2, 1, "assistant", "Hi there"⟩,
     ⟨3, 2, "user", "What did I just ask"⟩] 2 false
    (by decide) (by decide)).1

/-- A successful `find?` splits its list into a failing first segment,
the found element, and a remainder. -/
theorem find?_split {α : Type} {p : α → Bool} :
    ∀ {l : List α} {t : α}, l.find? p = some t →
      ∃ l1 l2, l = l1 ++ t :: l2 ∧ ∀ u ∈ l1, p u = false := by
  intro l
  induction l with
  | nil => intro t h; simp [List.find?] at h
  | cons a l ih =>
      intro t h
      cases hp : p a with
      | true =>
          rw [List.find?_cons_of_pos _ hp] at h
          obtain rfl : a = t := by injection h
          exact ⟨[], l, rfl, by intro u hu; cases hu⟩
      | false =>
          rw [List.find?_cons_of_neg _ (by simp [hp])] at h
          obtain ⟨l1, l2, rfl, hall⟩ := ih h
          refine ⟨a :: l1, l2, rfl, ?_⟩
          intro u hu
          rcases List.mem_cons.mp hu with rfl | hu2
          · exact hp
          · exact hall u hu2

/-- Claim C8: tool selection walks the enabled tools in priority order
and picks the first tool whose required schema the extracted entities
satisfy: when no tool is satisfiable the turn proceeds with
`tool_calls = []`; when a tool is selected it is satisfiable and every
tool of strictly lower priority number was unsatisfiable (skipped, not
an error).  In particular with ToolA (priority 1, requires x) and ToolB
(priority 2, requires y) and only `y` extracted, ToolB is selected. -/
theorem tool_selection_priority (tools : List ToolSpec) (entities : Entities) :
    ((∀ t ∈ tools, satisfies entities t = false) →
      tool_calls tools entities = []) ∧
    (∀ t, select_tool tools entities = some t →
      t ∈ tools ∧ satisfies entities t = true ∧
      ∀ u ∈ tools, u.priority < t.priority → satisfies entities u = false) ∧
    select_tool [⟨"ToolA", 1, ["x"]⟩, ⟨"ToolB", 2, ["y"]⟩] [("y", "v")] =
      some ⟨"ToolB", 2, ["y"]⟩ := by
  refine ⟨?_, ?_, ?_⟩
  · intro hall
    have hnone : select_tool tools entities = none := by
      unfold select_tool
      rw [List.find?_eq_none]
      intro u hu
      have hmem : u ∈ tools :=
        (List.perm_insertionSort toolLE tools).mem_iff.mp hu
      simp [hall u hmem]
    simp [tool_calls, hnone]
  · intro t hsel
    unfold select_tool at hsel
    have hsat := List.find?_some hsel
    have hmem : t ∈ tools :=
      (List.perm_insertionSort toolLE tools).mem_iff.mp
        (List.mem_of_find?_eq_some hsel)
    refine ⟨hmem, hsat, ?_⟩
    intro u hu hlt
    obtain ⟨l1, l2, hL, hfail⟩ := find?_split hsel
    have huS : u ∈ List.insertionSort toolLE tools :=
      (List.perm_insertionSort toolLE tools).mem_iff.mpr hu
    rw [hL] at huS
    rcases List.mem_append.mp huS with hu1 | hu2
    · exact hfail u hu1
    · rcases List.mem_cons.mp hu2 with rfl | hu3
      · exact absurd hlt (lt_irrefl _)
      · have hsorted := List.sorted_insertionSort toolLE tools
        rw [hL] at hsorted
        have hpair := (List.pairwise_append.mp hsorted).2.1
        have hrel : toolLE t u := (List.pairwise_cons.mp hpair).1 u hu3
        exact absurd hlt (Nat.not_lt.mpr hrel)
  · rfl

/-- Claim C8 witness: the ToolA/ToolB scenario — ToolB (priority 2) is
selected, ToolA (priority 1) was skipped because `x` was not
extracted. -/
theorem tool_selection_priority_witness :
    (⟨"ToolB", 2, ["y"]⟩ : ToolSpec) ∈
        [(⟨"ToolA", 1, ["x"]⟩ : ToolSpec), ⟨"ToolB", 2, ["y"]⟩] ∧
    satisfies [("y", "v")] ⟨"ToolB", 2, ["y"]⟩ = true ∧
    satisfies [("y", "v")] ⟨"ToolA", 1, ["x"]⟩ = false := by
  have H := (tool_selection_priority [⟨"ToolA", 1, ["x"]⟩, ⟨"ToolB", 2, ["y"]⟩]
    [("y", "v")]).2.1 ⟨"ToolB", 2, ["y"]⟩
    (tool_selection_priority [⟨"ToolA", 1, ["x"]⟩, ⟨"ToolB", 2, ["y"]⟩]
      [("y", "v")]).2.2
  exact ⟨H.1, H.2.1, H.2.2 ⟨"ToolA", 1, ["x"]⟩ (by decide) (by decide)⟩
